import Mathlib

/-!
Shallow embedding of the Grameler chunked remote-file engine
(src/grameler.py, src/database.py, src/file_utils.py) and proofs about it.

Bytes are modelled as natural numbers, timestamps as natural numbers, and
blob (telegram document) ids as natural numbers. The two database tables of
src/database.py become lists of records; peewee queries become list
traversals in row order.
-/

namespace Grameler

/-- A row of the `File` table (src/database.py, class File). The permission
booleans and `created_at`, which no modelled operation reads, are omitted. -/
structure FileNode where
  id : Nat
  name : String
  parent : Option Nat
  size : Nat
  user_owner : Nat
  group_owner : Nat
  sym_link : Option String
  is_directory : Bool
  mode : Nat
  updated_at : Nat
  accessed_at : Nat
deriving DecidableEq, Repr

/-- A row of the `TelegramDocument` table (src/database.py): one stored chunk,
`file_no` is the zero-based chunk sequence number. -/
structure TelegramDocument where
  telegram_id : Nat
  file_id : Nat
  file_no : Nat
deriving DecidableEq, Repr

/-- The relational metadata store: the two tables of src/database.py. -/
structure MetaStore where
  files : List FileNode
  docs : List TelegramDocument
deriving DecidableEq, Repr

/-- Errors surfaced by the operations: the FuseOSError errno values raised in
src/grameler.py, plus peewee's DoesNotExist (an uncaught `Model.get` miss) and
a failed blob download. -/
inductive Err where
  | ENOENT
  | ENOTDIR
  | ENOTEMPTY
  | DoesNotExist
  | IOErr
deriving DecidableEq, Repr

deriving instance DecidableEq for Except

/-- Split a character list at every '/' (Python `path.split('/')`), keeping
empty components; `cur` accumulates the current component reversed. -/
def splitAllAux : List Char → List Char → List String
  | [], cur => [String.mk cur.reverse]
  | c :: rest, cur =>
    if c = '/' then String.mk cur.reverse :: splitAllAux rest []
    else splitAllAux rest (c :: cur)

/-- Model of `list(filter(None, path.split('/')))` in Grameler._get_path_ids:
the non-empty '/'-separated components of the path. -/
def splitPath (path : String) : List String :=
  (splitAllAux path.data []).filter (fun s => s != "")

/-- Model of `File.get_or_none(File.name == name, File.parent_file == parent_id)`:
the first row matching the (name, parent) pair. -/
def getOrNone (st : MetaStore) (name : String) (parent : Nat) : Option FileNode :=
  st.files.find? (fun f => f.name == name && f.parent == some parent)

/-- The loop of Grameler._get_path_ids: walk the remaining components from
`parent`, appending each matched id to the accumulator `ids`, raising ENOENT
at the first component with no match. -/
def getPathIdsGo (st : MetaStore) : List String → Nat → List Nat → Except Err (List Nat)
  | [], _, ids => .ok ids
  | name :: rest, parent, ids =>
    match getOrNone st name parent with
    | none => .error .ENOENT
    | some f => getPathIdsGo st rest f.id (ids ++ [f.id])

/-- Grameler._get_path_ids: resolve a path to the chain of node ids from the
root (id 1) to the target. -/
def getPathIds (st : MetaStore) (path : String) : Except Err (List Nat) :=
  getPathIdsGo st (splitPath path) 1 [1]

/-- Modelled from the spec's words (claim C7, refinement comparison): the chain
of node ids obtained by matching each component in turn below `parent`, or
`none` as soon as one component has no match. -/
def chainSpec (st : MetaStore) (parent : Nat) : List String → Option (List Nat)
  | [] => some []
  | name :: rest =>
    match getOrNone st name parent with
    | none => none
    | some f =>
      match chainSpec st f.id rest with
      | none => none
      | some l => some (f.id :: l)

/-- Model of `File.get(id=i)`: the first row with the given id. -/
def getById (st : MetaStore) (i : Nat) : Option FileNode :=
  st.files.find? (fun f => f.id == i)

/-- Model of `f.files.count()`: the number of rows whose parent is `i`. -/
def childrenCount (st : MetaStore) (i : Nat) : Nat :=
  (st.files.filter (fun f => f.parent == some i)).length

/-- Model of `File.delete().where(File.id == i).execute()`: remove every File
row with the given id; the TelegramDocument table is untouched (the schema in
src/database.py declares no delete cascade). -/
def deleteFileRow (st : MetaStore) (i : Nat) : MetaStore :=
  { st with files := st.files.filter (fun f => f.id != i) }

/-- Grameler.rmdir. -/
def rmdir (st : MetaStore) (path : String) : Except Err MetaStore :=
  match getPathIds st path with
  | .error e => .error e
  | .ok ids =>
    match getById st (ids.getLastD 1) with
    | none => .error .DoesNotExist
    | some f =>
      if !f.is_directory then .error .ENOTDIR
      else if 0 < childrenCount st (ids.getLastD 1) then .error .ENOTEMPTY
      else .ok (deleteFileRow st (ids.getLastD 1))

/-- Grameler.unlink: resolve the path, then delete the File row only. -/
def unlink (st : MetaStore) (path : String) : Except Err MetaStore :=
  match getPathIds st path with
  | .error e => .error e
  | .ok ids => .ok (deleteFileRow st (ids.getLastD 1))

/-- The getattr result dict of Grameler.getattr. -/
structure Attr where
  st_atime : Nat
  st_uid : Nat
  st_gid : Nat
  st_mode : Nat
  st_mtime : Nat
  st_nlink : Nat
  st_size : Nat
deriving DecidableEq, Repr

/-- The mounting process's identity captured in Grameler.__init__
(self._uid = os.getuid(), self._gid = os.getgid()). -/
structure Config where
  uid : Nat
  gid : Nat
deriving DecidableEq, Repr

/-- The row update of Grameler.chown applied to one File row. -/
def updateOwner (fid uid gid : Nat) (f : FileNode) : FileNode :=
  if f.id == fid then { f with user_owner := uid, group_owner := gid } else f

/-- Grameler.chown: set user_owner/group_owner on the resolved node. -/
def chown (st : MetaStore) (path : String) (uid gid : Nat) : Except Err MetaStore :=
  match getPathIds st path with
  | .error e => .error e
  | .ok ids => .ok { st with files := st.files.map (updateOwner (ids.getLastD 1) uid gid) }

/-- Grameler.getattr: note that both st_uid and st_gid are filled from
self._uid (grameler.py lines 127-128), never from the stored owner columns. -/
def getattr (cfg : Config) (st : MetaStore) (path : String) : Except Err Attr :=
  match getPathIds st path with
  | .error e => .error e
  | .ok ids =>
    match getById st (ids.getLastD 1) with
    | none => .error .DoesNotExist
    | some f =>
      .ok { st_atime := f.accessed_at, st_uid := cfg.uid, st_gid := cfg.uid,
            st_mode := f.mode, st_mtime := f.updated_at, st_nlink := 0,
            st_size := f.size }

/-- One staging region, `self.tempfiles[path] = {'file': ..., 'lastwrite': ...}`:
the buffered bytes and the time of the last write. -/
structure Region where
  file : List Nat
  lastwrite : Nat
deriving DecidableEq, Repr

/-- The mutable state of a Grameler instance: the metadata store, the remote
blob store (telegram documents, id to bytes), the in-memory `self.tempfiles`
map, a ledger of every blob content ever uploaded, a counter producing fresh
blob ids, and `self._tgchunk_size` (set to 20 MiB in __init__; kept as a field
of the instance state, as in the source). -/
structure Sys where
  meta : MetaStore
  blobs : List (Nat × List Nat)
  tempfiles : List (String × Region)
  uploads : List (List Nat)
  nextTid : Nat
  tgchunk : Nat
deriving DecidableEq, Repr

/-- Dict read `self.tempfiles.get(path)`. -/
def lookupTf (m : List (String × Region)) (k : String) : Option Region :=
  (m.find? (fun e => e.1 == k)).map (fun e => e.2)

/-- Dict write `self.tempfiles[path] = v`: replace in place when the key
exists, else append (Python dicts keep first-insertion order). -/
def insertTf (m : List (String × Region)) (k : String) (v : Region) :
    List (String × Region) :=
  if (m.find? (fun e => e.1 == k)).isSome then
    m.map (fun e => if e.1 == k then (k, v) else e)
  else m ++ [(k, v)]

/-- Dict delete `del self.tempfiles[path]`. -/
def eraseTf (m : List (String × Region)) (k : String) : List (String × Region) :=
  m.filter (fun e => e.1 != k)

/-- File-object semantics of `file.seek(offset); file.write(buf)`: any gap
between the current end of data and `offset` is zero-filled, then `buf`
overwrites in place. -/
def writeAt (data : List Nat) (offset : Nat) (buf : List Nat) : List Nat :=
  let padded := data ++ List.replicate (offset - data.length) 0
  padded.take offset ++ buf ++ padded.drop (offset + buf.length)

/-- Grameler.write (the live path, lines 297-306): create the staging region if
absent, stamp lastwrite, copy the buffer in at the offset, and return. The
second component is the call's return value: the bare `return` on line 306
yields None, so it is always `none`; the chunked remote-write code below that
line is unreachable. -/
def write (s : Sys) (path : String) (buf : List Nat) (offset now : Nat) :
    Sys × Option Nat :=
  let r :=
    match lookupTf s.tempfiles path with
    | none => ({ file := [], lastwrite := 0 } : Region)
    | some r => r
  ({ s with tempfiles :=
      insertTf s.tempfiles path { file := writeAt r.file offset buf, lastwrite := now } },
   none)

/-- Grameler._upload_file: send bytes to the blob store; a fresh id is
returned and the content recorded in the upload ledger. -/
def uploadBlob (s : Sys) (data : List Nat) : Sys × Nat :=
  ({ s with blobs := s.blobs ++ [(s.nextTid, data)],
            uploads := s.uploads ++ [data],
            nextTid := s.nextTid + 1 }, s.nextTid)

/-- The idleness test of upload_files_daemon (line 289):
`(datetime.datetime.now() - temp_copy[path]['lastwrite']).seconds > 10`. -/
def regionIdle (now : Nat) (r : Region) : Bool := 10 < now - r.lastwrite

/-- The loop of one pass of Grameler.upload_files_daemon, iterating over the
copy `temp_copy = self.tempfiles.copy()`: for each idle entry still present in
self.tempfiles, delete it from the map and upload its staged bytes. The blob
id returned by _upload_file is discarded by the source. -/
def daemonGo (now : Nat) : List (String × Region) → Sys → Sys
  | [], s => s
  | (p, r) :: rest, s =>
    if regionIdle now r then
      if (lookupTf s.tempfiles p).isSome then
        daemonGo now rest (uploadBlob { s with tempfiles := eraseTf s.tempfiles p } r.file).1
      else daemonGo now rest s
    else daemonGo now rest s

/-- One pass of the body of Grameler.upload_files_daemon at time `now`. -/
def daemonPass (s : Sys) (now : Nat) : Sys := daemonGo now s.tempfiles s

/-- Grameler._get_file: download a blob's bytes by id. -/
def download (blobs : List (Nat × List Nat)) (tid : Nat) : Option (List Nat) :=
  (blobs.find? (fun e => e.1 == tid)).map (fun e => e.2)

/-- Model of `f.telegram_files`: the chunk rows of file `fid`, in row order. -/
def chunksOf (st : MetaStore) (fid : Nat) : List TelegramDocument :=
  st.docs.filter (fun c => c.file_id == fid)

/-- Python dict item assignment on an association list: update the value in
place when the key exists, else append. -/
def dictUpsert (m : List (Nat × Nat)) (k v : Nat) : List (Nat × Nat) :=
  if (m.find? (fun e => e.1 == k)).isSome then
    m.map (fun e => if e.1 == k then (k, v) else e)
  else m ++ [(k, v)]

/-- The dict-building loop of Grameler.read (lines 265-268):
`telegram_ids[telegram_file.telegram_id] = telegram_file.file_no`. -/
def tidDictGo : List TelegramDocument → List (Nat × Nat) → List (Nat × Nat)
  | [], m => m
  | c :: rest, m => tidDictGo rest (dictUpsert m c.telegram_id c.file_no)

/-- The finished `telegram_ids` dict of Grameler.read as a (telegram_id,
file_no) association list. -/
def tidDict (l : List TelegramDocument) : List (Nat × Nat) := tidDictGo l []

/-- Stable insertion keeping the list sorted by the second component. -/
def insSorted (x : Nat × Nat) : List (Nat × Nat) → List (Nat × Nat)
  | [] => [x]
  | y :: ys => if x.2 < y.2 then x :: y :: ys else y :: insSorted x ys

/-- Insertion-sort loop for sortByVal. -/
def sortByValGo : List (Nat × Nat) → List (Nat × Nat) → List (Nat × Nat)
  | [], acc => acc
  | x :: xs, acc => sortByValGo xs (insSorted x acc)

/-- Model of `sorted(telegram_ids, key=telegram_ids.get)` (line 270): the dict
entries in ascending file_no order, stable for equal keys. -/
def sortByVal (l : List (Nat × Nat)) : List (Nat × Nat) := sortByValGo l []

/-- The (telegram_id, file_no) pairs Grameler.read fetches from the blob
store, in fetch order (lines 265-274). Note the list depends only on the
file's chunk rows, never on the requested offset or length. -/
def fetchList (st : MetaStore) (fid : Nat) : List (Nat × Nat) :=
  sortByVal (tidDict (chunksOf st fid))

/-- Model of `temp.seek(offset)` followed by `temp.read(length)` on the
assembled content (lines 280-283). -/
def sliceRead (content : List Nat) (offset length : Nat) : List Nat :=
  (content.drop offset).take length

/-- Grameler.read: resolve the node, fetch every chunk in fetchList order,
concatenate everything into one buffer (file_utils.join exhausts each stream
once; the redundant outer loop on line 277 appends nothing further), stamp
accessed_at, and return the slice at (offset, length). -/
def readOp (s : Sys) (path : String) (length offset now : Nat) :
    Except Err (Sys × List Nat) :=
  match getPathIds s.meta path with
  | .error e => .error e
  | .ok ids =>
    match getById s.meta (ids.getLastD 1) with
    | none => .error .DoesNotExist
    | some _ =>
      match (fetchList s.meta (ids.getLastD 1)).mapM
          (fun e =>
            match download s.blobs e.1 with
            | none => Except.error Err.IOErr
            | some b => Except.ok b) with
      | .error e => .error e
      | .ok datas =>
        let meta1 := { s.meta with
          files := s.meta.files.map (fun g =>
            if g.id == ids.getLastD 1 then { g with accessed_at := now } else g) }
        .ok ({ s with meta := meta1 }, sliceRead datas.flatten offset length)

/-- Python-3 float test `a < length / cs` with `length / cs` true division
(grameler.py line 385); exact over the rationals for the values involved. -/
def floatLtNof (a length cs : Nat) : Bool :=
  decide ((a : ℚ) < (length : ℚ) / (cs : ℚ))

/-- Python-3 float test `file_no > length / cs` (line 390). -/
def floatGtNof (a length cs : Nat) : Bool :=
  decide ((length : ℚ) / (cs : ℚ) < (a : ℚ))

/-- Python-3 float test `file_no == length / cs` used by the
`TelegramDocument.get(file_id=..., file_no=nof_chunks)` lookup (line 392). -/
def floatEqNof (a length cs : Nat) : Bool :=
  decide ((a : ℚ) = (length : ℚ) / (cs : ℚ))

/-- The body of Grameler.truncate, with the three float comparisons against
`nof_chunks = length / self._tgchunk_size` passed in as `ltT`, `gtT`, `eqT`.
Returns the final state and the error, if any; the DoesNotExist escape from
the record lookup happens after the delete query has already executed, so the
partially mutated state is returned alongside the error. -/
def truncateCore (ltT gtT eqT : Nat → Nat → Bool) (s : Sys) (path : String)
    (length : Nat) : Sys × Option Err :=
  match getPathIds s.meta path with
  | .error e => (s, some e)
  | .ok ids =>
    match getById s.meta (ids.getLastD 1) with
    | none => (s, some .DoesNotExist)
    | some _ =>
      let fid := ids.getLastD 1
      let tfs := chunksOf s.meta fid
      if ltT tfs.length length then (s, none)
      else
        let meta1 : MetaStore := { s.meta with
          docs := s.meta.docs.filter (fun c => !(c.file_id == fid && gtT c.file_no length)) }
        let s1 := { s with meta := meta1 }
        match (chunksOf meta1 fid).find? (fun c => eqT c.file_no length) with
        | none => (s1, some .DoesNotExist)
        | some lastFile =>
          match download s1.blobs lastFile.telegram_id with
          | none => (s1, some .IOErr)
          | some data =>
            let up := uploadBlob s1 data
            let meta2 : MetaStore := { up.1.meta with
              docs := up.1.meta.docs.map (fun c =>
                if c.file_id == fid && c.file_no == lastFile.file_no then
                  { c with telegram_id := up.2 } else c) }
            let meta3 : MetaStore := { meta2 with
              files := meta2.files.map (fun g =>
                if g.id == fid then { g with size := length } else g) }
            ({ up.1 with meta := meta3 }, none)

/-- Grameler.truncate: the whole downloaded chunk is rewritten into `buf`
unsliced (lines 395-396) and re-uploaded, and f.size is set to `length`. -/
def truncateOp (s : Sys) (path : String) (length : Nat) : Sys × Option Err :=
  truncateCore (fun a l => floatLtNof a l s.tgchunk)
    (fun a l => floatGtNof a l s.tgchunk)
    (fun a l => floatEqNof a l s.tgchunk) s path length

/-- nof_chunks of the dead chunked-write branch (grameler.py line 315):
`int(len(buf) / cs) + (1 if len(buf) != cs else 0)`. -/
def nofChunksWr (cs bufLen : Nat) : Nat :=
  bufLen / cs + (if bufLen ≠ cs then 1 else 0)

/-- first_chunk_no of the chunked-write branch (lines 316-317). -/
def firstChunkNoWr (cs offset : Nat) : Nat := (offset - offset % cs) / cs

/-- The chunk indices `range(first_chunk_no, first_chunk_no + nof_chunks)`
visited by the chunked-write branch (lines 320 and 330). -/
def writeChunkIndices (cs offset bufLen : Nat) : List Nat :=
  List.range' (firstChunkNoWr cs offset) (nofChunksWr cs bufLen)

/-- Modelled from the spec's words (claims C1 and C4, refinement comparison):
the chunk indices the Chunk Map assigns to the byte range
[offset, offset+length), namely floor(offset/cs) .. floor((offset+length-1)/cs),
empty when length = 0. -/
def claimedChunkRange (cs offset length : Nat) : List Nat :=
  if length = 0 then []
  else List.range' (offset / cs) ((offset + length - 1) / cs + 1 - offset / cs)

/-- Modelled from the spec's words (claim C1): the intra-chunk window
[max(0, offset - i*cs), min(cs, offset + length - i*cs)) of chunk i
(natural-number subtraction supplies the max with 0). -/
def claimedWindow (cs offset length i : Nat) : Nat × Nat :=
  (offset - i * cs, min cs (offset + length - i * cs))

/-- The root File row created by Grameler.__init__. -/
def rootNode : FileNode :=
  { id := 1, name := "$", parent := none, size := 512, user_owner := 0,
    group_owner := 0, sym_link := none, is_directory := true, mode := 16895,
    updated_at := 0, accessed_at := 0 }

/-- A regular file "/f" of 8 bytes stored as two 4-byte chunks. -/
def fileNode2 : FileNode :=
  { id := 2, name := "f", parent := some 1, size := 8, user_owner := 0,
    group_owner := 0, sym_link := none, is_directory := false, mode := 33188,
    updated_at := 0, accessed_at := 0 }

/-- Metadata store holding the root and "/f" with chunk rows (seq 0, seq 1). -/
def store2 : MetaStore :=
  { files := [rootNode, fileNode2], docs := [⟨10, 2, 0⟩, ⟨11, 2, 1⟩] }

/-- Engine state over store2 with both chunk blobs present and chunk size 4. -/
def sys5 : Sys :=
  { meta := store2, blobs := [(10, [1, 2, 3, 4]), (11, [5, 6, 7, 8])],
    tempfiles := [], uploads := [], nextTid := 100, tgchunk := 4 }

/-- Engine state with an empty tempfiles map, used for the write examples. -/
def sys0 : Sys :=
  { meta := store2, blobs := [], tempfiles := [], uploads := [],
    nextTid := 0, tgchunk := 4 }

/-- Engine state whose file "/f" has no chunks yet but a 5-byte staging region
last written at time 0. -/
def sys3 : Sys :=
  { meta := { files := [rootNode, { fileNode2 with size := 0 }], docs := [] },
    blobs := [], tempfiles := [("/f", ⟨[1, 2, 3, 4, 5], 0⟩)], uploads := [],
    nextTid := 50, tgchunk := 4 }

/-- A directory node "/d" used for the rmdir example. -/
def dirNode : FileNode :=
  { id := 2, name := "d", parent := some 1, size := 512, user_owner := 0,
    group_owner := 0, sym_link := none, is_directory := true, mode := 16877,
    updated_at := 0, accessed_at := 0 }

/-- A child file inside "/d". -/
def childNode : FileNode :=
  { id := 3, name := "x", parent := some 2, size := 0, user_owner := 0,
    group_owner := 0, sym_link := none, is_directory := false, mode := 33188,
    updated_at := 0, accessed_at := 0 }

/-- Store with a non-empty directory "/d". -/
def storeDir : MetaStore := { files := [rootNode, dirNode, childNode], docs := [] }

/-- Engine state whose metadata store holds only the root. -/
def sysRoot : Sys :=
  { meta := { files := [rootNode], docs := [] }, blobs := [], tempfiles := [],
    uploads := [], nextTid := 0, tgchunk := 4 }

/-- Mounting identity used in the getattr examples. -/
def cfgMount : Config := { uid := 1000, gid := 1000 }

/-! ## Helper lemmas -/

/-- The resolver loop equals the spec-side chain, with the accumulator
appended in front. -/
theorem getPathIdsGo_chain (st : MetaStore) (names : List String) :
    ∀ (parent : Nat) (ids : List Nat),
      getPathIdsGo st names parent ids =
        match chainSpec st parent names with
        | some l => Except.ok (ids ++ l)
        | none => Except.error Err.ENOENT := by
  induction names with
  | nil => intro parent ids; simp [getPathIdsGo, chainSpec]
  | cons name rest ih =>
    intro parent ids
    cases h : getOrNone st name parent with
    | none => simp [getPathIdsGo, chainSpec, h]
    | some f =>
      simp only [getPathIdsGo, chainSpec, h]
      rw [ih]
      cases chainSpec st f.id rest with
      | none => rfl
      | some l => simp

/-- How lookupTf behaves on a cons cell. -/
theorem lookupTf_cons (a : String × Region) (m : List (String × Region))
    (k : String) :
    lookupTf (a :: m) k = if a.1 == k then some a.2 else lookupTf m k := by
  cases h : a.1 == k
  · have h' : ¬ a.1 = k := by simpa using h
    simp [lookupTf, List.find?_cons, h, h']
  · have h' : a.1 = k := by simpa using h
    simp [lookupTf, List.find?_cons, h, h']

/-- How eraseTf behaves on a cons cell. -/
theorem eraseTf_cons (a : String × Region) (m : List (String × Region))
    (k : String) :
    eraseTf (a :: m) k = if a.1 == k then eraseTf m k else a :: eraseTf m k := by
  cases h : a.1 == k
  · have h' : ¬ a.1 = k := by simpa using h
    simp [eraseTf, List.filter_cons, h, h']
  · have h' : a.1 = k := by simpa using h
    simp [eraseTf, List.filter_cons, h, h']

/-- Lookup finds the head binding. -/
theorem lookupTf_cons_self (k : String) (v : Region) (m : List (String × Region)) :
    lookupTf ((k, v) :: m) k = some v := by
  rw [lookupTf_cons]
  simp

/-- Erasing the key of the head binding drops it. -/
theorem eraseTf_cons_self (k : String) (v : Region) (m : List (String × Region)) :
    eraseTf ((k, v) :: m) k = eraseTf m k := by
  rw [eraseTf_cons]
  simp

/-- Reading back the key just updated in place. -/
theorem lookupTf_map_upd (k : String) (v : Region) :
    ∀ m : List (String × Region), (m.find? (fun e => e.1 == k)).isSome →
      lookupTf (m.map (fun e => if e.1 == k then (k, v) else e)) k = some v := by
  intro m
  induction m with
  | nil => intro h; simp at h
  | cons a t ih =>
    intro h
    by_cases hak : (a.1 == k) = true
    · rw [List.map_cons, if_pos hak]
      exact lookupTf_cons_self k v _
    · rw [List.map_cons, if_neg hak, lookupTf_cons, if_neg hak]
      refine ih ?_
      simpa [List.find?_cons, Bool.eq_false_iff.mpr hak] using h

/-- Reading back the key just appended to a map that lacked it. -/
theorem lookupTf_append_fresh (k : String) :
    ∀ (m1 m2 : List (String × Region)), (∀ e ∈ m1, e.1 ≠ k) →
      lookupTf (m1 ++ m2) k = lookupTf m2 k := by
  intro m1
  induction m1 with
  | nil => intro m2 _; rfl
  | cons a t ih =>
    intro m2 hf
    have hak : ¬ (a.1 == k) = true := by
      simpa using hf a (List.mem_cons_self a t)
    rw [List.cons_append, lookupTf_cons, if_neg hak]
    exact ih m2 (fun e he => hf e (List.mem_cons_of_mem a he))

/-- Reading back the key just appended to a map that lacked it. -/
theorem lookupTf_append_kv (k : String) (v : Region)
    (m : List (String × Region)) (h : m.find? (fun e => e.1 == k) = none) :
    lookupTf (m ++ [(k, v)]) k = some v := by
  have hf : ∀ e ∈ m, e.1 ≠ k := by
    intro e he
    have := List.find?_eq_none.mp h e he
    simpa using this
  rw [lookupTf_append_fresh k m [(k, v)] hf]
  exact lookupTf_cons_self k v []

/-- Reading back the key after insertTf. -/
theorem lookupTf_insertTf (m : List (String × Region)) (k : String) (v : Region) :
    lookupTf (insertTf m k v) k = some v := by
  unfold insertTf
  split
  · exact lookupTf_map_upd k v m (by assumption)
  · refine lookupTf_append_kv k v m ?_
    rename_i h
    exact Option.not_isSome_iff_eq_none.mp h

/-- Updating a key in place does not change the map with that key erased. -/
theorem eraseTf_map_upd (k : String) (v : Region) :
    ∀ m : List (String × Region),
      eraseTf (m.map (fun e => if e.1 == k then (k, v) else e)) k = eraseTf m k := by
  intro m
  induction m with
  | nil => rfl
  | cons a t ih =>
    by_cases hak : (a.1 == k) = true
    · rw [List.map_cons, if_pos hak, eraseTf_cons_self, eraseTf_cons, if_pos hak, ih]
    · rw [List.map_cons, if_neg hak, eraseTf_cons, if_neg hak, eraseTf_cons,
        if_neg hak, ih]

/-- Erase distributes over append. -/
theorem eraseTf_append (m1 m2 : List (String × Region)) (k : String) :
    eraseTf (m1 ++ m2) k = eraseTf m1 k ++ eraseTf m2 k := by
  simp [eraseTf, List.filter_append]

/-- Appending a binding for `k` does not change the map with `k` erased. -/
theorem eraseTf_append_kv (m : List (String × Region)) (k : String) (v : Region) :
    eraseTf (m ++ [(k, v)]) k = eraseTf m k := by
  rw [eraseTf_append, eraseTf_cons_self]
  simp [eraseTf]

/-- Erasing the key after insertTf gives the original map with the key erased. -/
theorem eraseTf_insertTf (m : List (String × Region)) (k : String) (v : Region) :
    eraseTf (insertTf m k v) k = eraseTf m k := by
  unfold insertTf
  split
  · exact eraseTf_map_upd k v m
  · exact eraseTf_append_kv m k v

/-- Erasing a key absent from the map is the identity. -/
theorem eraseTf_fresh (k : String) (m : List (String × Region))
    (hf : ∀ e ∈ m, e.1 ≠ k) : eraseTf m k = m := by
  rw [eraseTf, List.filter_eq_self]
  intro e he
  simpa using hf e he

/-- Full characterization of one daemon iteration over a suffix `l` of the
copied map, with `kept` the not-yet-idle entries already passed over: the
metadata store is untouched, exactly the idle entries are removed, and their
staged bytes are uploaded in order. -/
theorem daemonGo_spec (now : Nat) (l : List (String × Region)) :
    ∀ (kept : List (String × Region)) (s : Sys),
      s.tempfiles = kept ++ l →
      List.Pairwise (fun a b => a.1 ≠ b.1) (kept ++ l) →
      (daemonGo now l s).meta = s.meta ∧
      (daemonGo now l s).tempfiles = kept ++ l.filter (fun e => !regionIdle now e.2) ∧
      (daemonGo now l s).uploads
        = s.uploads ++ (l.filter (fun e => regionIdle now e.2)).map (fun e => e.2.file) := by
  induction l with
  | nil =>
    intro kept s hs _
    simp [daemonGo, hs]
  | cons hd rest ih =>
    obtain ⟨p, r⟩ := hd
    intro kept s hs hp
    have hp' := hp
    rw [List.pairwise_append] at hp'
    obtain ⟨-, hp2, hp3⟩ := hp'
    have hkept : ∀ e ∈ kept, e.1 ≠ p := fun e he =>
      hp3 e he (p, r) (List.mem_cons_self _ _)
    rw [List.pairwise_cons] at hp2
    obtain ⟨hph, -⟩ := hp2
    have hrest : ∀ e ∈ rest, e.1 ≠ p := fun e he => (hph e he).symm
    cases hidle : regionIdle now r with
    | true =>
      have hlk : (lookupTf s.tempfiles p).isSome = true := by
        rw [hs, lookupTf_append_fresh p kept _ hkept, lookupTf_cons_self]
        rfl
      have hps : List.Pairwise (fun a b => a.1 ≠ b.1) (kept ++ rest) :=
        List.Pairwise.sublist
          (List.Sublist.append (List.Sublist.refl kept)
            (List.sublist_cons_self (p, r) rest)) hp
      have hs₂t :
          ((uploadBlob { s with tempfiles := eraseTf s.tempfiles p } r.file).1).tempfiles
            = kept ++ rest := by
        show eraseTf s.tempfiles p = kept ++ rest
        rw [hs, eraseTf_append, eraseTf_fresh p kept hkept, eraseTf_cons_self,
          eraseTf_fresh p rest hrest]
      obtain ⟨ihm, iht, ihu⟩ := ih kept _ hs₂t hps
      simp only [daemonGo, hidle, hlk, if_true]
      refine ⟨?_, ?_, ?_⟩
      · exact ihm.trans rfl
      · rw [iht]
        simp [List.filter_cons, hidle]
      · rw [ihu]
        simp [uploadBlob, List.filter_cons, hidle, List.append_assoc]
    | false =>
      have hs' : s.tempfiles = (kept ++ [(p, r)]) ++ rest := by
        rw [hs]; simp
      have heq : (kept ++ [(p, r)]) ++ rest = kept ++ (p, r) :: rest := by simp
      obtain ⟨ihm, iht, ihu⟩ := ih (kept ++ [(p, r)]) s hs' (heq ▸ hp)
      simp only [daemonGo, hidle, Bool.false_eq_true, if_false]
      refine ⟨ihm, ?_, ?_⟩
      · rw [iht]
        simp [List.filter_cons, hidle]
      · rw [ihu]
        simp [List.filter_cons, hidle]

/-- When the telegram ids are pairwise distinct and fresh for the accumulator,
the dict-building loop of Grameler.read appends one entry per chunk row. -/
theorem tidDictGo_fresh :
    ∀ (l : List TelegramDocument) (m : List (Nat × Nat)),
      (∀ c ∈ l, ∀ e ∈ m, e.1 ≠ c.telegram_id) →
      List.Pairwise (fun a b => a.telegram_id ≠ b.telegram_id) l →
      tidDictGo l m = m ++ l.map (fun c => (c.telegram_id, c.file_no)) := by
  intro l
  induction l with
  | nil => intro m _ _; simp [tidDictGo]
  | cons c rest ih =>
    intro m hf hp
    rw [List.pairwise_cons] at hp
    obtain ⟨hc, hp'⟩ := hp
    have hnone : m.find? (fun e => e.1 == c.telegram_id) = none := by
      rw [List.find?_eq_none]
      intro e he hbe
      exact hf c (List.mem_cons_self _ _) e he (by simpa using hbe)
    have hf' : ∀ c' ∈ rest, ∀ e ∈ m ++ [(c.telegram_id, c.file_no)],
        e.1 ≠ c'.telegram_id := by
      intro c' hc' e he
      rcases List.mem_append.mp he with h1 | h2
      · exact hf c' (List.mem_cons_of_mem _ hc') e h1
      · have he2 : e = (c.telegram_id, c.file_no) := by simpa using h2
        rw [he2]
        exact hc c' hc'
    simp only [tidDictGo, dictUpsert, hnone, Option.isSome_none,
      Bool.false_eq_true, if_false]
    rw [ih _ hf' hp']
    simp

/-- Inserting into a sorted list permutes the element to the front. -/
theorem insSorted_perm (x : Nat × Nat) :
    ∀ l, List.Perm (insSorted x l) (x :: l) := by
  intro l
  induction l with
  | nil => exact List.Perm.refl _
  | cons y ys ih =>
    simp only [insSorted]
    split
    · exact List.Perm.refl _
    · exact (List.Perm.cons y ih).trans (List.Perm.swap x y ys)

/-- The insertion-sort loop permutes its input onto its accumulator. -/
theorem sortByValGo_perm :
    ∀ (l acc : List (Nat × Nat)), List.Perm (sortByValGo l acc) (l ++ acc) := by
  intro l
  induction l with
  | nil => intro acc; exact List.Perm.refl _
  | cons x xs ih =>
    intro acc
    have h1 := ih (insSorted x acc)
    have h2 : List.Perm (xs ++ insSorted x acc) (xs ++ (x :: acc)) :=
      List.Perm.append_left xs (insSorted_perm x acc)
    have h3 : List.Perm (xs ++ (x :: acc)) (x :: (xs ++ acc)) := List.perm_middle
    exact (h1.trans h2).trans h3

/-- sortByVal permutes its input. -/
theorem sortByVal_perm (l : List (Nat × Nat)) : List.Perm (sortByVal l) l := by
  have := sortByValGo_perm l []
  simpa using this

/-- find? commutes with a map that preserves the predicate. -/
theorem find?_map_pred (g : FileNode → FileNode) (p : FileNode → Bool)
    (hp : ∀ f, p (g f) = p f) :
    ∀ l : List FileNode, (l.map g).find? p = (l.find? p).map g := by
  intro l
  induction l with
  | nil => rfl
  | cons a t ih =>
    rw [List.map_cons, List.find?_cons, List.find?_cons, hp]
    cases p a <;> simp [ih]

/-- updateOwner never changes the id. -/
theorem updateOwner_id (fid uid gid : Nat) (f : FileNode) :
    (updateOwner fid uid gid f).id = f.id := by
  unfold updateOwner; split <;> rfl

/-- getOrNone sees through the ownership update. -/
theorem getOrNone_own (st : MetaStore) (fid uid gid : Nat) (name : String)
    (parent : Nat) :
    getOrNone { st with files := st.files.map (updateOwner fid uid gid) } name parent
      = (getOrNone st name parent).map (updateOwner fid uid gid) := by
  refine find?_map_pred _ _ ?_ st.files
  intro f
  unfold updateOwner
  split <;> rfl

/-- getById sees through the ownership update. -/
theorem getById_own (st : MetaStore) (fid uid gid i : Nat) :
    getById { st with files := st.files.map (updateOwner fid uid gid) } i
      = (getById st i).map (updateOwner fid uid gid) := by
  refine find?_map_pred _ _ ?_ st.files
  intro f
  unfold updateOwner
  split <;> rfl

/-- Path resolution is unaffected by chown's ownership update. -/
theorem getPathIdsGo_own (st : MetaStore) (fid uid gid : Nat)
    (names : List String) :
    ∀ (parent : Nat) (ids : List Nat),
      getPathIdsGo { st with files := st.files.map (updateOwner fid uid gid) }
          names parent ids
        = getPathIdsGo st names parent ids := by
  induction names with
  | nil => intro parent ids; rfl
  | cons name rest ih =>
    intro parent ids
    simp only [getPathIdsGo, getOrNone_own]
    cases h : getOrNone st name parent with
    | none => simp [h]
    | some f => simp [h, updateOwner_id, ih]

/-- Path resolution is unaffected by chown's ownership update. -/
theorem getPathIds_own (st : MetaStore) (fid uid gid : Nat) (path : String) :
    getPathIds { st with files := st.files.map (updateOwner fid uid gid) } path
      = getPathIds st path :=
  getPathIdsGo_own st fid uid gid (splitPath path) 1 [1]

/-- The float comparison a < length/cs is the integer comparison a*cs < length. -/
theorem floatLtNof_char (a l c : Nat) (hc : 0 < c) :
    floatLtNof a l c = decide (a * c < l) := by
  simp only [floatLtNof, decide_eq_decide]
  rw [lt_div_iff₀ (by exact_mod_cast hc : (0:ℚ) < (c:ℚ))]
  exact_mod_cast Iff.rfl

/-- The float comparison file_no > length/cs is length < file_no*cs. -/
theorem floatGtNof_char (a l c : Nat) (hc : 0 < c) :
    floatGtNof a l c = decide (l < a * c) := by
  simp only [floatGtNof, decide_eq_decide]
  rw [div_lt_iff₀ (by exact_mod_cast hc : (0:ℚ) < (c:ℚ))]
  exact_mod_cast Iff.rfl

/-- The float equality file_no == length/cs is file_no*cs == length. -/
theorem floatEqNof_char (a l c : Nat) (hc : 0 < c) :
    floatEqNof a l c = decide (a * c = l) := by
  simp only [floatEqNof, decide_eq_decide]
  rw [eq_div_iff (by exact_mod_cast hc.ne' : ((c:ℚ) ≠ 0))]
  exact_mod_cast Iff.rfl

/-- truncateOp with its float tests replaced by the equivalent integer tests,
enabling kernel evaluation on concrete states. -/
theorem truncateOp_eq_nat (s : Sys) (path : String) (length : Nat)
    (hc : 0 < s.tgchunk) :
    truncateOp s path length
      = truncateCore (fun a l => decide (a * s.tgchunk < l))
          (fun a l => decide (l < a * s.tgchunk))
          (fun a l => decide (a * s.tgchunk = l)) s path length := by
  unfold truncateOp
  rw [show (fun a l => floatLtNof a l s.tgchunk)
        = (fun a l => decide (a * s.tgchunk < l)) from
      funext fun a => funext fun l => floatLtNof_char a l s.tgchunk hc,
    show (fun a l => floatGtNof a l s.tgchunk)
        = (fun a l => decide (l < a * s.tgchunk)) from
      funext fun a => funext fun l => floatGtNof_char a l s.tgchunk hc,
    show (fun a l => floatEqNof a l s.tgchunk)
        = (fun a l => decide (a * s.tgchunk = l)) from
      funext fun a => funext fun l => floatEqNof_char a l s.tgchunk hc]

/-! ## Claim theorems -/

/-- Claim C1 (code evaluation at the failing input): at chunk_size 4, offset 2
and buffer length 4, the chunked write branch computes nof_chunks = 1 and
touches only chunk 0, whereas the claimed mapping covers chunks 0 and 1
(floor((2+4-1)/4) = 1), so the write path's offset-to-chunk arithmetic does
not implement the claimed chunk map. -/
theorem write_chunk_arithmetic_diverges :
    writeChunkIndices 4 2 4 = [0] ∧
    claimedChunkRange 4 2 4 = [0, 1] ∧
    writeChunkIndices 4 2 4 ≠ claimedChunkRange 4 2 4 := by decide

/-- Claim C2 (counterexample): a concrete write buffers the bytes but returns
`none`, not the number of bytes accepted (which would be `some 3`). -/
theorem write_returns_none_cex :
    write sys0 "/f" [1, 2, 3] 0 7
      = ({ sys0 with
            tempfiles := [("/f", { file := [1, 2, 3], lastwrite := 7 })] }, none) ∧
    (none : Option Nat) ≠ some 3 := by decide

/-- Claim C2 (amended): a write call performs no upload and no metadata-store
mutation; it only copies the buffer into the staging region for its path at
the given offset (creating the region if absent, zero-filling any gap) and
records the write time — but it returns None (no byte count) rather than the
number of bytes accepted. -/
theorem write_buffers_only (s : Sys) (path : String) (buf : List Nat)
    (offset now : Nat) :
    (write s path buf offset now).2 = none ∧
    (write s path buf offset now).1.meta = s.meta ∧
    (write s path buf offset now).1.uploads = s.uploads ∧
    (write s path buf offset now).1.blobs = s.blobs ∧
    lookupTf (write s path buf offset now).1.tempfiles path
      = some { file := writeAt (match lookupTf s.tempfiles path with
                 | none => [] | some r => r.file) offset buf,
               lastwrite := now } ∧
    eraseTf (write s path buf offset now).1.tempfiles path
      = eraseTf s.tempfiles path := by
  refine ⟨rfl, rfl, rfl, rfl, ?_, ?_⟩
  · cases h : lookupTf s.tempfiles path with
    | none => simp only [write, h, lookupTf_insertTf]
    | some r => simp only [write, h, lookupTf_insertTf]
  · cases h : lookupTf s.tempfiles path with
    | none => simp only [write, h, eraseTf_insertTf]
    | some r => simp only [write, h, eraseTf_insertTf]

/-- Claim C3 (counterexample): one daemon pass over a state with an idle
5-byte staging region for "/f" removes the region and uploads its bytes, but
leaves the metadata store untouched: no chunk record is created for the
uploaded blob (its id is discarded) and the file's stored size stays 0 even
though the staged content has length 5. -/
theorem daemon_discards_upload_cex :
    daemonPass sys3 20
      = { meta := sys3.meta, blobs := [(50, [1, 2, 3, 4, 5])], tempfiles := [],
          uploads := [[1, 2, 3, 4, 5]], nextTid := 51, tgchunk := 4 } ∧
    (daemonPass sys3 20).meta = sys3.meta ∧
    ((daemonPass sys3 20).meta.files.find? (fun f => f.id == 2)).map
        (fun f => f.size) = some 0 ∧
    (daemonPass sys3 20).meta.docs = [] ∧
    (0 : Nat) ≠ 5 := by decide

/-- Claim C3 (amended): for every staging region whose last_write is more than
10 seconds old, one pass of the flush daemon removes the region from the
active set and uploads its entire staged content as a single blob, in map
order; the returned blob id is discarded and the metadata store (chunk
records, file size, updated_at) is not modified at all. -/
theorem daemon_pass_spec (s : Sys) (now : Nat)
    (h : List.Pairwise (fun a b => a.1 ≠ b.1) s.tempfiles) :
    (daemonPass s now).meta = s.meta ∧
    (daemonPass s now).tempfiles
      = s.tempfiles.filter (fun e => !regionIdle now e.2) ∧
    (daemonPass s now).uploads
      = s.uploads
        ++ (s.tempfiles.filter (fun e => regionIdle now e.2)).map
            (fun e => e.2.file) :=
  daemonGo_spec now s.tempfiles [] s rfl h

/-- Witness for daemon_pass_spec at a concrete state. -/
theorem daemon_pass_spec_witness :
    (daemonPass sys3 20).tempfiles
      = sys3.tempfiles.filter (fun e => !regionIdle 20 e.2) :=
  (daemon_pass_spec sys3 20 (by decide)).2.1

/-- Claim C4 (counterexample): for a read of 1 byte at offset 0 from a file
with chunks 0 and 1, the chunk map's range is just [0], yet read's fetch list
covers both chunks — the whole file is fetched. -/
theorem read_fetches_beyond_range_cex :
    (fetchList store2 2).map (fun e => e.2) = [0, 1] ∧
    claimedChunkRange 4 0 1 = [0] ∧
    ([0, 1] : List Nat) ≠ [0] := by decide

/-- Claim C4 (amended): read's fetch list covers every chunk record of the
file (it is a permutation of all stored sequence numbers and is independent of
the requested offset and length, which fetchList does not even take), the full
content is assembled, and the returned slice (content.drop offset).take length
is shorter than `length` exactly when the range extends past end-of-content.
Stated under pairwise-distinct blob ids (the normal invariant; read's dict
keyed by telegram_id would otherwise drop duplicates). -/
theorem read_fetches_all_chunks (st : MetaStore) (fid : Nat)
    (h : List.Pairwise (fun a b => a.telegram_id ≠ b.telegram_id)
      (chunksOf st fid)) :
    List.Perm ((fetchList st fid).map (fun e => e.2))
      ((chunksOf st fid).map (fun c => c.file_no)) ∧
    (∀ (content : List Nat) (offset n : Nat),
      (sliceRead content offset n).length = min n (content.length - offset)) := by
  constructor
  · have h1 : tidDict (chunksOf st fid)
        = (chunksOf st fid).map (fun c => (c.telegram_id, c.file_no)) :=
      tidDictGo_fresh (chunksOf st fid) [] (by intro c _ e he; simp at he) h
    have h2 := sortByVal_perm (tidDict (chunksOf st fid))
    have h3 : (tidDict (chunksOf st fid)).map (fun e => e.2)
        = (chunksOf st fid).map (fun c => c.file_no) := by
      rw [h1, List.map_map]
      rfl
    exact (h2.map (fun e => e.2)).trans (by rw [h3])
  · intro content offset n
    simp [sliceRead]

/-- Witness for read_fetches_all_chunks at a concrete store. -/
theorem read_fetches_all_chunks_witness :
    List.Perm ((fetchList store2 2).map (fun e => e.2))
      ((chunksOf store2 2).map (fun c => c.file_no)) :=
  (read_fetches_all_chunks store2 2 (by decide)).1

/-- Claim C5 (code evaluation at the failing input): truncating the 8-byte
two-chunk file "/f" to 4 bytes keeps the chunk record with sequence 1 =
chunk_count (re-uploading its full 4-byte content unsliced) instead of
deleting every sequence outside [0, 1), while setting size to 4; and
truncating to 5 aborts with DoesNotExist because the record lookup compares
the integer column against the float 5/4. -/
theorem truncate_keeps_last_chunk_cex :
    truncateOp sys5 "/f" 4
      = ({ meta := { files := [rootNode, { fileNode2 with size := 4 }],
                     docs := [⟨10, 2, 0⟩, ⟨100, 2, 1⟩] },
           blobs := [(10, [1, 2, 3, 4]), (11, [5, 6, 7, 8]), (100, [5, 6, 7, 8])],
           tempfiles := [], uploads := [[5, 6, 7, 8]], nextTid := 101,
           tgchunk := 4 }, none) ∧
    ((truncateOp sys5 "/f" 4).1.meta.docs.any
        (fun c => c.file_id == 2 && c.file_no == 1)) = true ∧
    (truncateOp sys5 "/f" 5).2 = some Err.DoesNotExist := by
  rw [truncateOp_eq_nat sys5 "/f" 4 (by decide),
    truncateOp_eq_nat sys5 "/f" 5 (by decide)]
  decide

/-- Claim C6 (counterexample): after unlinking "/f" (node id 2) the FileNode
row is gone but a TelegramDocument row with file_id 2 is still present. -/
theorem unlink_orphans_chunks_cex :
    (unlink store2 "/f").map
        (fun st => (st.files.any (fun f => f.id == 2),
                    st.docs.any (fun c => c.file_id == 2)))
      = Except.ok (false, true) := by decide

/-- Claim C6 (amended): on a resolvable path, unlink deletes only the FileNode
row of the target; the metadata store's chunk records are left unchanged, so
records referencing the deleted node remain (orphaned). -/
theorem unlink_deletes_only_filenode (st : MetaStore) (path : String)
    (ids : List Nat) (h : getPathIds st path = Except.ok ids) :
    unlink st path = Except.ok (deleteFileRow st (ids.getLastD 1)) ∧
    (deleteFileRow st (ids.getLastD 1)).docs = st.docs := by
  constructor
  · simp [unlink, h]
  · rfl

/-- Witness for unlink_deletes_only_filenode at a concrete store. -/
theorem unlink_deletes_only_filenode_witness :
    unlink store2 "/f" = Except.ok (deleteFileRow store2 2) ∧
    (deleteFileRow store2 2).docs = store2.docs :=
  unlink_deletes_only_filenode store2 "/f" [1, 2] (by decide)

/-- Claim C7: resolve splits the path into its non-empty components and walks
them from the root: it returns the ordered id chain from the root (id 1) to
the target exactly when every component matches (the chain of chainSpec),
raises ENOENT as a failure carrying no partial result otherwise, and resolves
the empty path to exactly [1]. -/
theorem resolve_spec (st : MetaStore) (path : String) :
    (getPathIds st path =
      match chainSpec st 1 (splitPath path) with
      | some l => Except.ok (1 :: l)
      | none => Except.error Err.ENOENT) ∧
    getPathIds st "" = Except.ok [1] := by
  constructor
  · unfold getPathIds
    rw [getPathIdsGo_chain]
    cases chainSpec st 1 (splitPath path) with
    | none => rfl
    | some l => simp
  · rfl

/-- Claim C8: on a resolvable path, rmdir fails with ENOTDIR on a
non-directory, fails with ENOTEMPTY when the directory has at least one child
(returning no mutated store), and deletes exactly the directory's row when it
has no children. -/
theorem rmdir_spec (st : MetaStore) (path : String) (ids : List Nat)
    (f : FileNode) (h1 : getPathIds st path = Except.ok ids)
    (h2 : getById st (ids.getLastD 1) = some f) :
    (f.is_directory = false → rmdir st path = Except.error Err.ENOTDIR) ∧
    (f.is_directory = true → 0 < childrenCount st (ids.getLastD 1) →
      rmdir st path = Except.error Err.ENOTEMPTY) ∧
    (f.is_directory = true → childrenCount st (ids.getLastD 1) = 0 →
      rmdir st path = Except.ok (deleteFileRow st (ids.getLastD 1))) := by
  rw [List.getLastD_eq_getLast?] at h2
  refine ⟨?_, ?_, ?_⟩
  · intro hd
    simp [rmdir, h1, h2, hd]
  · intro hd hc
    rw [List.getLastD_eq_getLast?] at hc
    simp [rmdir, h1, h2, hd, hc]
  · intro hd hc
    rw [List.getLastD_eq_getLast?] at hc
    simp [rmdir, h1, h2, hd, hc]

/-- Witness for rmdir_spec: "/d" has one child, so rmdir fails ENOTEMPTY. -/
theorem rmdir_spec_witness :
    rmdir storeDir "/d" = Except.error Err.ENOTEMPTY :=
  (rmdir_spec storeDir "/d" [1, 2] dirNode (by decide) (by decide)).2.1
    (by decide) (by decide)

/-- Claim C9: getattr reports st_uid and st_gid both from the mounting
process's uid (the same cfg.uid value), never the stored owner columns, and
consequently a successful chown changes no subsequent getattr result on any
path. -/
theorem getattr_ignores_ownership (cfg : Config) (st : MetaStore)
    (path q : String) (uid gid : Nat) (st' : MetaStore)
    (h : chown st path uid gid = Except.ok st') :
    getattr cfg st' q = getattr cfg st q ∧
    (∀ a : Attr, getattr cfg st q = Except.ok a →
      a.st_uid = cfg.uid ∧ a.st_gid = cfg.uid) := by
  cases hr : getPathIds st path with
  | error e => simp [chown, hr] at h
  | ok ids =>
    simp only [chown, hr, Except.ok.injEq] at h
    subst h
    constructor
    · unfold getattr
      rw [getPathIds_own]
      split
      · rfl
      · rw [getById_own]
        rename_i ids' heq
        cases hb : getById st (ids'.getLastD 1) with
        | none => rfl
        | some g =>
          simp only [Option.map_some']
          unfold updateOwner
          split <;> rfl
    · intro a ha
      unfold getattr at ha
      split at ha
      · exact absurd ha (by simp)
      · split at ha
        · exact absurd ha (by simp)
        · simp only [Except.ok.injEq] at ha
          subst ha
          exact ⟨rfl, rfl⟩

/-- Witness for getattr_ignores_ownership: chown of "/f" to (7, 8) leaves
getattr of "/f" unchanged. -/
theorem getattr_ignores_ownership_witness :
    getattr cfgMount { store2 with files := store2.files.map (updateOwner 2 7 8) } "/f"
      = getattr cfgMount store2 "/f" :=
  (getattr_ignores_ownership cfgMount store2 "/f" "/f" 7 8
    { store2 with files := store2.files.map (updateOwner 2 7 8) } (by decide)).1

/-- Claim C10: write never consults the path resolver or the metadata store:
even on a path that does not resolve (ENOENT), the call succeeds, returns
None, leaves the metadata store untouched, and behaves identically whatever
metadata store is substituted. -/
theorem write_ignores_metadata (s : Sys) (m' : MetaStore) (path : String)
    (buf : List Nat) (offset now : Nat)
    (_h : getPathIds s.meta path = Except.error Err.ENOENT) :
    (write s path buf offset now).2 = none ∧
    (write s path buf offset now).1.meta = s.meta ∧
    write { s with meta := m' } path buf offset now
      = ({ (write s path buf offset now).1 with meta := m' },
         (write s path buf offset now).2) :=
  ⟨rfl, rfl, rfl⟩

/-- Witness for write_ignores_metadata on a store where "/x" does not exist. -/
theorem write_ignores_metadata_witness :
    (write sysRoot "/x" [9] 0 3).2 = none :=
  (write_ignores_metadata sysRoot { files := [], docs := [] } "/x" [9] 0 3
    (by decide)).1

end Grameler
